import Mathlib

/-!
Verification of the LLM Guard filter pipeline
(`src/pipelines/llmguard_filter_pipeline.py`).

The Python module defines a single `Pipeline` class whose `inlet` method
inspects a chat request body: it reads the last message's content, normalizes
`body["metadata"]["files"]` when that entry is `None`, runs a prompt-injection
scanner on the last message, and runs a ban-substrings scanner on the
message text concatenated with the attached files' text.  Both scanners are
external black boxes with a `scan(text) -> (sanitized, is_valid, risk_score)`
contract, so they are modelled here as function-valued parameters (`Env`).

Python strings are modelled as `List Char`; Python `dict` lookups that can
fail are modelled with `Option` fields (`none` = key absent); exceptions are
modelled by a result type `PyOutcome` distinguishing raw lookup failures
(`KeyError` / `IndexError`) from `raise Exception(msg)`.  Python float risk
scores are modelled as rationals; the literal `0.8` is rendered `mkRat 8 10`.
Since `inlet` mutates the body in place (the files normalization) before it
can raise, the model `inletState` returns both the outcome and the body's
state after the call.
-/

/-- Lowercasing (`str.lower()`), modelled per character; the content at issue
is ASCII, where `Char.toLower` agrees with Python's `str.lower`. -/
def lowerL (s : List Char) : List Char := s.map Char.toLower

/-- Boolean prefix test on character lists. -/
def isPre : List Char → List Char → Bool
  | [], _ => true
  | _ :: _, [] => false
  | a :: as, b :: bs => a == b && isPre as bs

/-- Index of the first occurrence of `pat` in the haystack
(Python `str.find`, as `Option`). -/
def findSub (pat : List Char) : List Char → Option Nat
  | [] => if pat = [] then some 0 else none
  | c :: rest => if isPre pat (c :: rest) then some 0 else (findSub pat rest).map (· + 1)

/-- Substring containment (Python `in` on strings). -/
def containsSub (pat s : List Char) : Bool := (findSub pat s).isSome

/-- Python `" ".join(xs)`. -/
def joinSpace : List (List Char) → List Char
  | [] => []
  | [x] => x
  | x :: xs => x ++ [' '] ++ joinSpace xs

/-- The apostrophe character, used by the error-message `f`-strings. -/
def squote : Char := Char.ofNat 39

/-- The literal `"..."` wrapped around a context window. -/
def dots : List Char := ['.', '.', '.']

/-- The module-level ban list `forbidden_strings`. -/
def forbidden_strings : List (List Char) := [("StartupNation Confidential".data)]

/-- Result triple of a scanner's `scan` call. -/
structure ScanResult where
  sanitized : List Char
  is_valid : Bool
  risk_score : ℚ

/-- The two scanner instances built by `on_startup` (`self.pi_model.scan` and
`self.bs_model.scan`), treated as black-box functions. -/
structure Env where
  pi_model : List Char → ScanResult
  bs_model : List Char → ScanResult

/-- A chat message: `content` is `none` when the `"content"` key is absent;
`rest` stands for all other keys of the message dict. -/
structure Message (α : Type) where
  content : Option (List Char)
  rest : α
deriving DecidableEq

/-- The `file["file"]["data"]` level: `content` is `none` when the
`"content"` key is absent. -/
structure FileData where
  content : Option (List Char)
deriving DecidableEq

/-- The `file["file"]` level: `data` is `none` when the `"data"` key is absent. -/
structure FileInner where
  data : Option FileData
deriving DecidableEq

/-- One entry of `body["metadata"]["files"]`: `file` is `none` when the
`"file"` key is absent. -/
structure FileEntry where
  file : Option FileInner
deriving DecidableEq

/-- The per-file expression of `inlet`: `file["file"]["data"]["content"]` when
the whole nested path exists, else `""`. -/
def FileEntry.getContent (f : FileEntry) : List Char :=
  match f.file with
  | some fi =>
    match fi.data with
    | some fd =>
      match fd.content with
      | some c => c
      | none => []
    | none => []
  | none => []

/-- State of `body["metadata"]["files"]`: key absent, key present with value
`None`, or key present with a list of entries. -/
inductive FilesField where
  | missing
  | null
  | present (entries : List FileEntry)
deriving DecidableEq

/-- The request body: `messages`, the `metadata.files` entry, the rest of
`metadata` (opaque `β`), and all other top-level keys (opaque `γ`). -/
structure Body (α β γ : Type) where
  messages : List (Message α)
  files : FilesField
  metaRest : β
  rest : γ
deriving DecidableEq

/-- Failure modes of `inlet`: raw dict/list lookup failures, or an explicit
`raise Exception(msg)`. -/
inductive PyError where
  | keyError (key : List Char)
  | indexError
  | exception (msg : List Char)
deriving DecidableEq

/-- Outcome of a call that either returns a value or raises. -/
inductive PyOutcome (α : Type) where
  | ok (val : α)
  | raise (err : PyError)
deriving DecidableEq

/-- Python `"{:.2f}".format q` on the rational model of the score: round to
hundredths (ties to even, as float formatting does), then print with exactly
two digits after the point. Implemented on `q.num` and `q.den` directly. -/
def formatTwoDec (q : ℚ) : List Char :=
  let n : ℤ := q.num * 100
  let d : ℤ := (q.den : ℤ)
  let f : ℤ := Int.fdiv n d
  let r : ℤ := n - d * f
  let h : ℤ := if 2 * r < d then f else if d < 2 * r then f + 1 else if f % 2 = 0 then f else f + 1
  let a : ℕ := h.natAbs
  (if h < 0 then ['-'] else []) ++ Nat.toDigits 10 (a / 100) ++ ['.'] ++
    [Char.ofNat (48 + a % 100 / 10), Char.ofNat (48 + a % 10)]

/-- Context window around a match: `full_content[start:end]` with
`start = max(0, index - 20)` and `end = min(len(full_content), index + len(forbidden) + 20)`. -/
def contextFor (full forb : List Char) (index : Nat) : List Char :=
  let start := max 0 (index - 20)
  let stop := min full.length (index + forb.length + 20)
  (full.drop start).take (stop - start)

/-- The diagnostic re-scan loop of `inlet`: for each forbidden string whose
lowercase form occurs in the lowercase full content, record the string and
`"..." + context + "..."` at the first (lowered) match index. -/
def matchedStrings (full : List Char) : List (List Char × List Char) :=
  forbidden_strings.filterMap (fun forb =>
    match findSub (lowerL forb) (lowerL full) with
    | some index => some (forb, dots ++ contextFor full forb index ++ dots)
    | none => none)

/-- One line of the confidential-content error message:
`"\n- Found '<string>' in context:\n  <...context...>"`. -/
def matchLine (m : List Char × List Char) : List Char :=
  ("\n- Found ".data) ++ [squote] ++ m.1 ++ [squote] ++ (" in context:\n  ".data) ++ m.2

/-- The confidential-content error message: the header followed by one line
per matched forbidden string, accumulated exactly as the Python loop does. -/
def errorMessage (full : List Char) : List Char :=
  (matchedStrings full).foldl (fun acc m => acc ++ matchLine m)
    ("Confidential information detected:\n".data)

/-- The prompt-injection rejection message. -/
def piMessage (score : ℚ) : List Char :=
  ("Prompt injection detected with risk score: ".data) ++ formatTwoDec score

variable {α β γ : Type}

/-- The in-place normalization `if body["metadata"]["files"] is None:
body["metadata"]["files"] = []`. -/
def normalizeFiles (b : Body α β γ) : Body α β γ :=
  match b.files with
  | .null => { b with files := .present [] }
  | _ => b

/-- The list `inlet` iterates over when building `files_contents` (after
normalization a `null` entry has become the empty list). -/
def filesEntries (b : Body α β γ) : List FileEntry :=
  match b.files with
  | .present l => l
  | _ => []

/-- `full_content = user_message + " " + " ".join(files_contents)`. -/
def fullContentOf (msgC : List Char) (entries : List FileEntry) : List Char :=
  msgC ++ [' '] ++ joinSpace (entries.map FileEntry.getContent)

/-- The `inlet` method: outcome paired with the body's state after the call
(the call mutates the body in place before it can raise). The rational
`mkRat 8 10` renders the Python literal `0.8`. -/
def inletState (env : Env) (b : Body α β γ) : PyOutcome (Body α β γ) × Body α β γ :=
  match b.messages.getLast? with
  | none => (.raise .indexError, b)
  | some lastMsg =>
    match lastMsg.content with
    | none => (.raise (.keyError ("content".data)), b)
    | some user_message =>
      match b.files with
      | .missing => (.raise (.keyError ("files".data)), b)
      | _ =>
        let b2 := normalizeFiles b
        let files_contents := (filesEntries b).map FileEntry.getContent
        let res1 := env.pi_model user_message
        if res1.risk_score > mkRat 8 10 then
          (.raise (.exception (piMessage res1.risk_score)), b2)
        else
          let full_content := user_message ++ [' '] ++ joinSpace files_contents
          let res2 := env.bs_model full_content
          if res2.is_valid then (.ok b2, b2)
          else (.raise (.exception (errorMessage full_content)), b2)

/-- The outcome of `inlet` (the returned body or the raised error). -/
def inlet (env : Env) (b : Body α β γ) : PyOutcome (Body α β γ) :=
  (inletState env b).1

/-! ### Evaluation lemmas for `inletState` -/

theorem inletState_no_messages (env : Env) (b : Body α β γ)
    (hm : b.messages.getLast? = none) :
    inletState env b = (.raise .indexError, b) := by
  simp [inletState, hm]

theorem inletState_no_content (env : Env) (b : Body α β γ) (m : Message α)
    (hm : b.messages.getLast? = some m) (hc : m.content = none) :
    inletState env b = (.raise (.keyError ("content".data)), b) := by
  simp [inletState, hm, hc]

theorem inletState_files_missing (env : Env) (b : Body α β γ) (m : Message α)
    (msgC : List Char) (hm : b.messages.getLast? = some m) (hc : m.content = some msgC)
    (hf : b.files = .missing) :
    inletState env b = (.raise (.keyError ("files".data)), b) := by
  simp [inletState, hm, hc, hf]

theorem inletState_reject_pi (env : Env) (b : Body α β γ) (m : Message α)
    (msgC : List Char) (hm : b.messages.getLast? = some m) (hc : m.content = some msgC)
    (hf : b.files ≠ .missing)
    (hr : (env.pi_model msgC).risk_score > mkRat 8 10) :
    inletState env b =
      (.raise (.exception (piMessage (env.pi_model msgC).risk_score)), normalizeFiles b) := by
  cases hfi : b.files with
  | missing => exact absurd hfi hf
  | null => simp [inletState, hm, hc, hfi, hr, normalizeFiles]
  | present l => simp [inletState, hm, hc, hfi, hr, normalizeFiles]

theorem inletState_past_pi (env : Env) (b : Body α β γ) (m : Message α)
    (msgC : List Char) (hm : b.messages.getLast? = some m) (hc : m.content = some msgC)
    (hf : b.files ≠ .missing)
    (hr : ¬ ((env.pi_model msgC).risk_score > mkRat 8 10)) :
    inletState env b =
      (if (env.bs_model (fullContentOf msgC (filesEntries b))).is_valid then
        (.ok (normalizeFiles b), normalizeFiles b)
      else
        (.raise (.exception (errorMessage (fullContentOf msgC (filesEntries b)))),
          normalizeFiles b)) := by
  cases hfi : b.files with
  | missing => exact absurd hfi hf
  | null => simp [inletState, hm, hc, hfi, hr, normalizeFiles, fullContentOf, filesEntries]
  | present l => simp [inletState, hm, hc, hfi, hr, normalizeFiles, fullContentOf, filesEntries]

theorem inletState_snd (env : Env) (b : Body α β γ) (m : Message α)
    (msgC : List Char) (hm : b.messages.getLast? = some m) (hc : m.content = some msgC)
    (hf : b.files ≠ .missing) :
    (inletState env b).2 = normalizeFiles b := by
  by_cases hr : (env.pi_model msgC).risk_score > mkRat 8 10
  · rw [inletState_reject_pi env b m msgC hm hc hf hr]
  · rw [inletState_past_pi env b m msgC hm hc hf hr]
    split <;> rfl

/-! ### Correctness of the substring search (`isPre`, `findSub`, `containsSub`) -/

theorem isPre_iff (p s : List Char) : isPre p s = true ↔ p <+: s := by
  induction p generalizing s with
  | nil => simp [isPre]
  | cons a as ih =>
    cases s with
    | nil => simp [isPre]
    | cons b bs => simp [isPre, List.cons_prefix_cons, ih]

theorem isPre_append (p t : List Char) : isPre p (p ++ t) = true := by
  induction p with
  | nil => simp [isPre]
  | cons a as ih => simp [isPre, ih]

theorem findSub_some (p : List Char) (s : List Char) (i : Nat)
    (h : findSub p s = some i) :
    isPre p (s.drop i) = true ∧ ∀ j, j < i → isPre p (s.drop j) = false := by
  induction s generalizing i with
  | nil =>
    by_cases hp : p = [] <;> simp [findSub, hp] at h
    subst h
    simp [hp, isPre]
  | cons c rest ih =>
    by_cases hc : isPre p (c :: rest) = true
    · simp [findSub, hc] at h
      subst h
      exact ⟨hc, by omega⟩
    · simp [findSub, hc] at h
      obtain ⟨i', hi', rfl⟩ := h
      obtain ⟨h1, h2⟩ := ih i' hi'
      refine ⟨h1, ?_⟩
      intro j hj
      cases j with
      | zero => simpa using hc
      | succ j' => exact h2 j' (by omega)

theorem findSub_none (p : List Char) (s : List Char)
    (h : findSub p s = none) : ∀ j, isPre p (s.drop j) = false := by
  induction s with
  | nil =>
    intro j
    cases p with
    | nil => simp [findSub] at h
    | cons a as => simp [isPre]
  | cons c rest ih =>
    by_cases hc : isPre p (c :: rest) = true
    · simp [findSub, hc] at h
    · simp [findSub, hc] at h
      intro j
      cases j with
      | zero => simpa using hc
      | succ j' => exact ih h j'

theorem containsSub_iff_exists (p s : List Char) :
    containsSub p s = true ↔ ∃ i, isPre p (s.drop i) = true := by
  constructor
  · intro h
    rw [containsSub, Option.isSome_iff_exists] at h
    obtain ⟨i, hi⟩ := h
    exact ⟨i, (findSub_some p s i hi).1⟩
  · rintro ⟨i, hi⟩
    rw [containsSub, Option.isSome_iff_exists]
    cases hf : findSub p s with
    | none => exact absurd hi (by simp [findSub_none p s hf i])
    | some j => exact ⟨j, rfl⟩

theorem containsSub_iff_occurs (p s : List Char) :
    containsSub p s = true ↔ p <:+: s := by
  rw [containsSub_iff_exists]
  constructor
  · rintro ⟨i, hi⟩
    obtain ⟨t, ht⟩ := (isPre_iff _ _).mp hi
    exact ⟨s.take i, t, by rw [List.append_assoc, ht, List.take_append_drop]⟩
  · rintro ⟨a, t, ht⟩
    refine ⟨a.length, ?_⟩
    rw [← ht, List.append_assoc, List.drop_left]
    exact isPre_append p t

theorem containsSub_middle (a p t : List Char) :
    containsSub p (a ++ p ++ t) = true :=
  (containsSub_iff_occurs p _).mpr ⟨a, t, rfl⟩

/-! ### Structure of the confidential-content error message -/

theorem foldl_append_flatten {σ : Type} (g : σ → List Char) (l : List σ)
    (init : List Char) :
    l.foldl (fun acc x => acc ++ g x) init = init ++ (l.map g).flatten := by
  induction l generalizing init with
  | nil => simp
  | cons x xs ih => simp [List.foldl_cons, ih, List.append_assoc]

theorem errorMessage_eq (full : List Char) :
    errorMessage full =
      ("Confidential information detected:\n".data) ++
        ((matchedStrings full).map matchLine).flatten :=
  foldl_append_flatten matchLine (matchedStrings full) _

theorem matchLine_infix_errorMessage (full : List Char)
    (m : List Char × List Char) (hm : m ∈ matchedStrings full) :
    containsSub (matchLine m) (errorMessage full) = true := by
  obtain ⟨l₁, l₂, hl⟩ := List.append_of_mem hm
  rw [errorMessage_eq, hl]
  simp only [List.map_append, List.map_cons, List.flatten_append, List.flatten_cons]
  rw [show ("Confidential information detected:\n".data) ++
        ((l₁.map matchLine).flatten ++ (matchLine m ++ (l₂.map matchLine).flatten)) =
      (("Confidential information detected:\n".data) ++ (l₁.map matchLine).flatten) ++
        matchLine m ++ (l₂.map matchLine).flatten by simp [List.append_assoc]]
  exact containsSub_middle _ _ _

theorem errorMessage_no_match (full : List Char)
    (h : ∀ forb, forb ∈ forbidden_strings → containsSub (lowerL forb) (lowerL full) = false) :
    errorMessage full = ("Confidential information detected:\n".data) := by
  have hempty : matchedStrings full = [] := by
    rw [matchedStrings, List.filterMap_eq_nil_iff]
    intro forb hforb
    have := h forb hforb
    rw [containsSub] at this
    cases hf : findSub (lowerL forb) (lowerL full) with
    | none => simp
    | some i => rw [hf] at this; simp at this
  rw [errorMessage, hempty]
  rfl

theorem piMessage_ne_errorMessage (r : ℚ) (full : List Char) :
    piMessage r ≠ errorMessage full := by
  rw [errorMessage_eq]
  rw [show piMessage r =
      'P' :: (("rompt injection detected with risk score: ".data) ++ formatTwoDec r) from rfl]
  rw [show ("Confidential information detected:\n".data) =
      'C' :: ("onfidential information detected:\n".data) from rfl]
  intro h
  rw [List.cons_append] at h
  injection h with h1 h2
  exact absurd h1 (by decide)

/-! ### Concrete scanner environments and bodies used by witnesses and
counterexamples. Risk scores are built with `mkRat` so that they evaluate. -/

/-- A scanner pair that accepts everything: injection risk `0.1`, substrings valid. -/
def envLowRisk : Env :=
  Env.mk (fun _ => ScanResult.mk [] true (mkRat 1 10)) (fun s => ScanResult.mk s true (mkRat 0 1))

/-- A scanner pair whose injection scanner reports risk `0.95`. -/
def envHighRisk : Env :=
  Env.mk (fun _ => ScanResult.mk [] true (mkRat 95 100)) (fun s => ScanResult.mk s true (mkRat 0 1))

/-- A scanner pair with low injection risk whose substring scanner reports invalid. -/
def envConfReject : Env :=
  Env.mk (fun _ => ScanResult.mk [] true (mkRat 1 10)) (fun s => ScanResult.mk s false (mkRat 0 1))

/-- An injection scanner reporting risk `0.95`, for use with varying substring scanners. -/
def piHigh : List Char → ScanResult := fun _ => ScanResult.mk [] true (mkRat 95 100)

/-- A substring scanner reporting valid. -/
def bsValid : List Char → ScanResult := fun s => ScanResult.mk s true (mkRat 0 1)

/-- A substring scanner reporting invalid. -/
def bsInvalid : List Char → ScanResult := fun s => ScanResult.mk s false (mkRat 0 1)

/-- A one-message conversation whose last message has content `"hi"`. -/
def msgHi : Message Unit := Message.mk (some ("hi".data)) ()

/-- A well-formed body with an empty files list. -/
def bodyPresent : Body Unit Unit Unit := Body.mk [msgHi] (.present []) () ()

/-- A well-formed body whose `metadata.files` is `None`. -/
def bodyNull : Body Unit Unit Unit := Body.mk [msgHi] .null () ()

/-- A body whose `metadata` lacks the `"files"` key. -/
def bodyMissingFiles : Body Unit Unit Unit := Body.mk [msgHi] .missing () ()

/-- A body with an empty `messages` list. -/
def bodyNoMessages : Body Unit Unit Unit := Body.mk [] (.present []) () ()

/-- A body whose last message lacks the `"content"` key. -/
def bodyNoContent : Body Unit Unit Unit := Body.mk [Message.mk none ()] (.present []) () ()

/-! ### The claims -/

/-- Claim C1: for every request body whose last message content yields an
injection-scanner risk score at most `0.8` and whose combined message+file
content the substring scanner reports valid, `inlet` returns the body
unchanged (up to the files normalization of step 2, which is the identity
whenever `metadata.files` was not `None`), raising no exception. -/
theorem inlet_pass_through (env : Env) (b : Body α β γ) (m : Message α) (msgC : List Char)
    (hm : b.messages.getLast? = some m) (hc : m.content = some msgC)
    (hf : b.files ≠ .missing)
    (hrisk : (env.pi_model msgC).risk_score ≤ mkRat 8 10)
    (hvalid : (env.bs_model (fullContentOf msgC (filesEntries b))).is_valid = true) :
    inlet env b = .ok (normalizeFiles b) ∧ (b.files ≠ .null → normalizeFiles b = b) := by
  constructor
  · rw [inlet, inletState_past_pi env b m msgC hm hc hf (not_lt.mpr hrisk), if_pos hvalid]
  · intro hnull
    cases hfi : b.files with
    | missing => exact absurd hfi hf
    | null => exact absurd hfi hnull
    | present l => simp [normalizeFiles, hfi]

theorem inlet_pass_through_witness :
    inlet envLowRisk bodyPresent = .ok (normalizeFiles bodyPresent) ∧
      (bodyPresent.files ≠ .null → normalizeFiles bodyPresent = bodyPresent) :=
  inlet_pass_through envLowRisk bodyPresent msgHi ("hi".data)
    (by decide) (by decide) (by decide) (by decide) (by decide)

/-- Claim C2: the injection check applies the injection scanner to the last
message's content alone (the body's files are arbitrary here and do not enter
the condition), and `inlet` aborts with the message
`"Prompt injection detected with risk score: "` followed by the score in
two-decimal fixed formatting exactly when the risk score is strictly greater
than `0.8`. -/
theorem inlet_injection_iff (env : Env) (b : Body α β γ) (m : Message α) (msgC : List Char)
    (hm : b.messages.getLast? = some m) (hc : m.content = some msgC)
    (hf : b.files ≠ .missing) :
    (env.pi_model msgC).risk_score > mkRat 8 10 ↔
      inlet env b = .raise (.exception (piMessage (env.pi_model msgC).risk_score)) := by
  constructor
  · intro hr
    rw [inlet, inletState_reject_pi env b m msgC hm hc hf hr]
  · intro h
    by_contra hr
    have h2 := inletState_past_pi env b m msgC hm hc hf hr
    by_cases hv : (env.bs_model (fullContentOf msgC (filesEntries b))).is_valid = true
    · have h3 : inlet env b = .ok (normalizeFiles b) := by rw [inlet, h2, if_pos hv]
      rw [h3] at h
      simp at h
    · have h3 : inlet env b =
          .raise (.exception (errorMessage (fullContentOf msgC (filesEntries b)))) := by
        rw [inlet, h2, if_neg hv]
      rw [h3] at h
      injection h with h4
      injection h4 with h5
      exact piMessage_ne_errorMessage _ _ h5.symm

theorem inlet_injection_iff_witness :
    inlet envHighRisk bodyPresent =
      .raise (.exception ("Prompt injection detected with risk score: 0.95".data)) := by
  have h := (inlet_injection_iff envHighRisk bodyPresent msgHi ("hi".data)
    (by decide) (by decide) (by decide)).mp (by decide)
  exact h.trans (by decide)

/-- Claim C5: when the injection risk score exceeds `0.8`, `inlet` raises the
prompt-injection rejection, and the outcome does not depend on the substring
scanner at all (the model's rendering of "the substring scanner is never
invoked"): two environments sharing the injection scanner but with arbitrary,
different substring scanners produce the same outcome. -/
theorem inlet_injection_shortcircuit (pi bs1 bs2 : List Char → ScanResult)
    (b : Body α β γ) (m : Message α) (msgC : List Char)
    (hm : b.messages.getLast? = some m) (hc : m.content = some msgC)
    (hf : b.files ≠ .missing)
    (hr : (pi msgC).risk_score > mkRat 8 10) :
    inlet (Env.mk pi bs1) b = .raise (.exception (piMessage (pi msgC).risk_score)) ∧
      inlet (Env.mk pi bs1) b = inlet (Env.mk pi bs2) b := by
  have h1 := inletState_reject_pi (Env.mk pi bs1) b m msgC hm hc hf hr
  have h2 := inletState_reject_pi (Env.mk pi bs2) b m msgC hm hc hf hr
  exact ⟨by rw [inlet, h1], by rw [inlet, inlet, h1, h2]⟩

theorem inlet_injection_shortcircuit_witness :
    inlet (Env.mk piHigh bsValid) bodyPresent =
        .raise (.exception (piMessage (mkRat 95 100))) ∧
      inlet (Env.mk piHigh bsValid) bodyPresent = inlet (Env.mk piHigh bsInvalid) bodyPresent :=
  inlet_injection_shortcircuit piHigh bsValid bsInvalid bodyPresent msgHi ("hi".data)
    (by decide) (by decide) (by decide) (by decide)

/-- Claim C7: once the injection check has passed, `inlet` raises exactly when
the substring scanner reports the full content invalid — the diagnostic
re-scan never changes the decision: on an invalid verdict with no forbidden
string actually contained, the raised message is the bare header, and on a
valid verdict the body passes even if a forbidden string is contained. -/
theorem inlet_confidential_iff (env : Env) (b : Body α β γ) (m : Message α) (msgC : List Char)
    (hm : b.messages.getLast? = some m) (hc : m.content = some msgC)
    (hf : b.files ≠ .missing)
    (hrisk : (env.pi_model msgC).risk_score ≤ mkRat 8 10) :
    ((∃ e, inlet env b = .raise e) ↔
        (env.bs_model (fullContentOf msgC (filesEntries b))).is_valid = false) ∧
    ((env.bs_model (fullContentOf msgC (filesEntries b))).is_valid = false →
      inlet env b = .raise (.exception (errorMessage (fullContentOf msgC (filesEntries b))))) ∧
    ((∀ forb, forb ∈ forbidden_strings →
        containsSub (lowerL forb) (lowerL (fullContentOf msgC (filesEntries b))) = false) →
      errorMessage (fullContentOf msgC (filesEntries b)) =
        ("Confidential information detected:\n".data)) ∧
    ((env.bs_model (fullContentOf msgC (filesEntries b))).is_valid = true →
      inlet env b = .ok (normalizeFiles b)) := by
  have h2 := inletState_past_pi env b m msgC hm hc hf (not_lt.mpr hrisk)
  refine ⟨⟨?_, ?_⟩, ?_, ?_, ?_⟩
  · rintro ⟨e, he⟩
    by_cases hv : (env.bs_model (fullContentOf msgC (filesEntries b))).is_valid = true
    · have h3 : inlet env b = .ok (normalizeFiles b) := by rw [inlet, h2, if_pos hv]
      rw [h3] at he
      simp at he
    · simpa using hv
  · intro hv
    refine ⟨.exception (errorMessage (fullContentOf msgC (filesEntries b))), ?_⟩
    rw [inlet, h2, if_neg (by simp [hv])]
  · intro hv
    rw [inlet, h2, if_neg (by simp [hv])]
  · exact errorMessage_no_match _
  · intro hv
    rw [inlet, h2, if_pos hv]

theorem inlet_confidential_iff_witness :
    inlet envConfReject bodyPresent =
      .raise (.exception (errorMessage (fullContentOf ("hi".data) (filesEntries bodyPresent)))) :=
  (inlet_confidential_iff envConfReject bodyPresent msgHi ("hi".data)
    (by decide) (by decide) (by decide) (by decide)).2.1 rfl

/-- Claim C4: a forbidden string produces a diagnostic entry exactly when its
lowercase form occurs in the lowercase full content (case-insensitive
containment), and the entry's context is built from the first occurrence
index `i` in the lowered content (no earlier index matches): the slice of the
original, non-lowered content from `max 0 (i - 20)` to
`min full.length (i + forb.length + 20)`, wrapped in `"..."`. -/
theorem matched_context_window (full forb : List Char)
    (hforb : forb ∈ forbidden_strings) :
    ((∃ ctx, (forb, ctx) ∈ matchedStrings full) ↔ lowerL forb <:+: lowerL full) ∧
    (∀ ctx i, (forb, ctx) ∈ matchedStrings full →
      findSub (lowerL forb) (lowerL full) = some i →
      lowerL forb <+: List.drop i (lowerL full) ∧
      (∀ j, j < i → ¬ lowerL forb <+: List.drop j (lowerL full)) ∧
      ctx = dots ++
        (List.take (min full.length (i + forb.length + 20) - max 0 (i - 20))
          (List.drop (max 0 (i - 20)) full)) ++ dots) := by
  constructor
  · constructor
    · rintro ⟨ctx, hctx⟩
      rw [matchedStrings, List.mem_filterMap] at hctx
      obtain ⟨a, ha, hfa⟩ := hctx
      cases hfi : findSub (lowerL a) (lowerL full) with
      | none => rw [hfi] at hfa; simp at hfa
      | some i =>
        rw [hfi] at hfa
        simp only [Option.some.injEq, Prod.mk.injEq] at hfa
        obtain ⟨⟨rfl, -⟩⟩ := hfa
        exact (containsSub_iff_occurs _ _).mp (by rw [containsSub, hfi]; rfl)
    · intro hinf
      have hcs := (containsSub_iff_occurs (lowerL forb) (lowerL full)).mpr hinf
      rw [containsSub] at hcs
      cases hfi : findSub (lowerL forb) (lowerL full) with
      | none => rw [hfi] at hcs; simp at hcs
      | some i =>
        refine ⟨dots ++ contextFor full forb i ++ dots, ?_⟩
        rw [matchedStrings, List.mem_filterMap]
        exact ⟨forb, hforb, by rw [hfi]⟩
  · intro ctx i hctx hfind
    rw [matchedStrings, List.mem_filterMap] at hctx
    obtain ⟨a, ha, hfa⟩ := hctx
    cases hfi : findSub (lowerL a) (lowerL full) with
    | none => rw [hfi] at hfa; simp at hfa
    | some i0 =>
      rw [hfi] at hfa
      simp only [Option.some.injEq, Prod.mk.injEq] at hfa
      obtain ⟨rfl, hctxeq⟩ := hfa
      rw [hfind] at hfi
      obtain rfl : i = i0 := Option.some.inj hfi
      refine ⟨?_, ?_, ?_⟩
      · exact (isPre_iff _ _).mp (findSub_some _ _ _ hfind).1
      · intro j hj hpre
        have hmin := (findSub_some _ _ _ hfind).2 j hj
        rw [(isPre_iff _ _).mpr hpre] at hmin
        exact Bool.noConfusion hmin
      · rw [← hctxeq]
        rfl

theorem matched_context_window_witness :
    lowerL ("StartupNation Confidential".data) <+:
      List.drop 4 (lowerL ("see StartupNation Confidential now".data)) ∧
    (dots ++ ("see StartupNation Confidential now".data) ++ dots) = dots ++
      (List.take (min ("see StartupNation Confidential now".data).length
            (4 + ("StartupNation Confidential".data).length + 20) - max 0 (4 - 20))
        (List.drop (max 0 (4 - 20)) ("see StartupNation Confidential now".data))) ++ dots :=
  ⟨((matched_context_window ("see StartupNation Confidential now".data)
        ("StartupNation Confidential".data) (by decide)).2
      (dots ++ ("see StartupNation Confidential now".data) ++ dots) 4
      (by decide) (by decide)).1,
    ((matched_context_window ("see StartupNation Confidential now".data)
        ("StartupNation Confidential".data) (by decide)).2
      (dots ++ ("see StartupNation Confidential now".data) ++ dots) 4
      (by decide) (by decide)).2.2⟩

/-- Scenario B's last message, `"Please summarize StartupNation Confidential roadmap"`. -/
def scenarioBBody : Body Unit Unit Unit :=
  Body.mk [Message.mk (some ("Please summarize StartupNation Confidential roadmap".data)) ()]
    (.present []) () ()

/-- The message `inlet` actually raises in scenario B. Note the space between
`roadmap` and the closing `...`: the scanned full content is the message plus
a trailing `" "` (from `user_message + " " + " ".join([])`), and the window
`min(len, index + len(forbidden) + 20)` reaches past it, so the trailing
space is inside the context slice. -/
def scenarioBActual : List Char :=
  ("Confidential information detected:\n\n- Found ".data) ++ [squote] ++
    ("StartupNation Confidential".data) ++ [squote] ++
    (" in context:\n  ...Please summarize StartupNation Confidential roadmap ...".data)

/-- The message claim C3 predicts for scenario B (no header line, no
trailing space in the context). -/
def scenarioBClaimed : List Char :=
  ("Found ".data) ++ [squote] ++ ("StartupNation Confidential".data) ++ [squote] ++
    (" in context:\n  ...Please summarize StartupNation Confidential roadmap...".data)

set_option maxRecDepth 8192 in
/-- Claim C3 counterexample: in scenario B (injection score `0.1`, substring
scanner invalid), `inlet` raises a message that differs from the claimed one
and does not even contain it as a substring: the actual context slice ends
with `"roadmap ..."` (trailing space), not `"roadmap..."`, and the full
message carries the `"Confidential information detected:"` header and a
`"- "` bullet before `"Found"`. -/
theorem scenarioB_counterexample :
    inlet envConfReject scenarioBBody = .raise (.exception scenarioBActual) ∧
      scenarioBActual ≠ scenarioBClaimed ∧
      containsSub scenarioBClaimed scenarioBActual = false := by decide

set_option maxRecDepth 8192 in
/-- Claim C3 (amended): when the confidentiality check rejects, the message is
the header `"Confidential information detected:\n"` followed by one line per
matched forbidden string of the form `"\n- Found '<string>' in context:\n  ...<context>..."`
(each such line occurs in the raised message); in scenario B the context
window covers the whole scanned content including its trailing space, so the
raised message is `scenarioBActual`. -/
theorem confidential_message_format :
    (∀ full m, m ∈ matchedStrings full →
      containsSub (matchLine m) (errorMessage full) = true) ∧
      inlet envConfReject scenarioBBody = .raise (.exception scenarioBActual) :=
  ⟨fun full m hm => matchLine_infix_errorMessage full m hm, by decide⟩

theorem confidential_message_format_witness :
    containsSub
      (matchLine (("StartupNation Confidential".data),
        dots ++ ("StartupNation Confidential".data) ++ dots))
      (errorMessage ("StartupNation Confidential".data)) = true :=
  confidential_message_format.1 ("StartupNation Confidential".data)
    (("StartupNation Confidential".data),
      dots ++ ("StartupNation Confidential".data) ++ dots) (by decide)

/-- Claim C6 counterexample: when the `"files"` key is absent from
`metadata` (as opposed to present with value `None`), `inlet` does not
normalize it to an empty sequence: it raises a raw `KeyError` and leaves the
body untouched. -/
theorem files_absent_counterexample :
    inletState envLowRisk bodyMissingFiles =
        (.raise (.keyError ("files".data)), bodyMissingFiles) ∧
      bodyMissingFiles.files = .missing := by decide

/-- Claim C6 (amended): `inlet` normalizes `metadata.files` to an empty
sequence when it is present and `None` (and this happens before the scans,
whatever their outcome); when the key is absent the lookup itself raises a
raw `KeyError` with no normalization; and a file entry lacking any level of
the nested `file.data.content` structure contributes an empty string. -/
theorem files_normalization (env : Env) (b : Body α β γ) (m : Message α) (msgC : List Char)
    (hm : b.messages.getLast? = some m) (hc : m.content = some msgC) :
    (b.files = .null → (inletState env b).2 = { b with files := .present [] }) ∧
    (b.files = .missing → inletState env b = (.raise (.keyError ("files".data)), b)) ∧
    (∀ fe : FileEntry, fe.file = none → fe.getContent = []) ∧
    (∀ fe : FileEntry, ∀ fi : FileInner, fe.file = some fi → fi.data = none →
      fe.getContent = []) ∧
    (∀ fe : FileEntry, ∀ fi : FileInner, ∀ fd : FileData, fe.file = some fi →
      fi.data = some fd → fd.content = none → fe.getContent = []) := by
  refine ⟨?_, ?_, ?_, ?_, ?_⟩
  · intro hnull
    rw [inletState_snd env b m msgC hm hc (by simp [hnull])]
    simp [normalizeFiles, hnull]
  · intro hmiss
    exact inletState_files_missing env b m msgC hm hc hmiss
  · intro fe h
    simp [FileEntry.getContent, h]
  · intro fe fi h1 h2
    simp [FileEntry.getContent, h1, h2]
  · intro fe fi fd h1 h2 h3
    simp [FileEntry.getContent, h1, h2, h3]

theorem files_normalization_witness :
    (inletState envLowRisk bodyNull).2 = { bodyNull with files := .present [] } :=
  (files_normalization envLowRisk bodyNull msgHi ("hi".data) (by decide) (by decide)).1 rfl

/-- Claim C8 counterexample: on an empty `messages` list, `inlet` propagates
the raw list-indexing failure of `body["messages"][-1]` (an `IndexError`),
not an explicit `MissingDataError` / `MalformedRequest` error. -/
theorem raw_lookup_counterexample :
    inletState envLowRisk bodyNoMessages = (.raise .indexError, bodyNoMessages) := by decide

/-- Claim C8 (amended): when `messages` is empty `inlet` fails with the raw
`IndexError` of the `[-1]` lookup, and when the last message lacks a
`"content"` key it fails with the raw `KeyError` of the `["content"]` lookup;
no explicit `MissingDataError` / `MalformedRequest` is raised anywhere. -/
theorem malformed_messages_raw_errors (env : Env) (b : Body α β γ) :
    (b.messages = [] → inletState env b = (.raise .indexError, b)) ∧
    (∀ m, b.messages.getLast? = some m → m.content = none →
      inletState env b = (.raise (.keyError ("content".data)), b)) := by
  constructor
  · intro h
    exact inletState_no_messages env b (by simp [h])
  · intro m hm hc
    exact inletState_no_content env b m hm hc

theorem malformed_messages_raw_errors_witness :
    inletState envLowRisk bodyNoContent = (.raise (.keyError ("content".data)), bodyNoContent) :=
  (malformed_messages_raw_errors envLowRisk bodyNoContent).2 (Message.mk none ())
    (by decide) rfl

theorem inletState_post_cases (env : Env) (b : Body α β γ) :
    (inletState env b).2 = b ∨
      (b.files = .null ∧ (inletState env b).2 = { b with files := .present [] }) := by
  cases hm : b.messages.getLast? with
  | none => left; rw [inletState_no_messages env b hm]
  | some m =>
    cases hc : m.content with
    | none => left; rw [inletState_no_content env b m hm hc]
    | some msgC =>
      by_cases hfm : b.files = .missing
      · left; rw [inletState_files_missing env b m msgC hm hc hfm]
      · rw [inletState_snd env b m msgC hm hc hfm]
        cases hfi : b.files with
        | missing => exact absurd hfi hfm
        | null => right; exact ⟨rfl, by simp [normalizeFiles, hfi]⟩
        | present l => left; simp [normalizeFiles, hfi]

theorem inlet_ok_eq_snd (env : Env) (b : Body α β γ) (b2 : Body α β γ)
    (h : inlet env b = .ok b2) : b2 = (inletState env b).2 := by
  cases hm : b.messages.getLast? with
  | none => rw [inlet, inletState_no_messages env b hm] at h; simp at h
  | some m =>
    cases hc : m.content with
    | none => rw [inlet, inletState_no_content env b m hm hc] at h; simp at h
    | some msgC =>
      by_cases hfm : b.files = .missing
      · rw [inlet, inletState_files_missing env b m msgC hm hc hfm] at h; simp at h
      · by_cases hr : (env.pi_model msgC).risk_score > mkRat 8 10
        · rw [inlet, inletState_reject_pi env b m msgC hm hc hfm hr] at h; simp at h
        · rw [inlet, inletState_past_pi env b m msgC hm hc hfm hr] at h
          rw [inletState_snd env b m msgC hm hc hfm]
          by_cases hv : (env.bs_model (fullContentOf msgC (filesEntries b))).is_valid = true
          · rw [if_pos hv] at h
            simp at h
            exact h.symm
          · rw [if_neg hv] at h
            simp at h

/-- Claim C9: for every body and every scanner pair, the only mutation `inlet`
performs on the body is setting `metadata.files` to an empty sequence when it
was `None`; `messages`, the rest of `metadata` and all other keys are
unchanged, and the successfully returned body is exactly the post-call body
(no partial body is produced on failure — failures return no body at all). -/
theorem inlet_frame (env : Env) (b : Body α β γ) :
    ((inletState env b).2 = b ∨
      (b.files = .null ∧ (inletState env b).2 = { b with files := .present [] })) ∧
    ((inletState env b).2.messages = b.messages ∧
      (inletState env b).2.metaRest = b.metaRest ∧
      (inletState env b).2.rest = b.rest) ∧
    (∀ b2, inlet env b = .ok b2 → b2 = (inletState env b).2) := by
  refine ⟨inletState_post_cases env b, ?_, fun b2 h => inlet_ok_eq_snd env b b2 h⟩
  rcases inletState_post_cases env b with h | ⟨-, h⟩ <;> rw [h] <;> exact ⟨rfl, rfl, rfl⟩

theorem inlet_frame_witness :
    ((inletState envLowRisk bodyNull).2 = bodyNull ∨
      (bodyNull.files = .null ∧
        (inletState envLowRisk bodyNull).2 = { bodyNull with files := .present [] })) ∧
      (inletState envLowRisk bodyNull).2 = { bodyNull with files := .present [] } :=
  ⟨(inlet_frame envLowRisk bodyNull).1, by decide⟩

/-- Claim C10: with the same scanners (no scanner state change), running
`inlet` a second time on the body as the first call left it produces the same
decision as the first call — in particular the decision is the same whether
`metadata.files` arrived as `None` or as the empty list the first call
normalized it to; and as a pure function of scanners and body the model is
trivially deterministic, so the two calls agree. -/
theorem inlet_idempotent (env : Env) (b : Body α β γ) :
    inlet env ((inletState env b).2) = inlet env b := by
  cases hm : b.messages.getLast? with
  | none => rw [inletState_no_messages env b hm]
  | some m =>
    cases hc : m.content with
    | none => rw [inletState_no_content env b m hm hc]
    | some msgC =>
      by_cases hfm : b.files = .missing
      · rw [inletState_files_missing env b m msgC hm hc hfm]
      · rw [inletState_snd env b m msgC hm hc hfm]
        cases hfi : b.files with
        | missing => exact absurd hfi hfm
        | present l => simp [normalizeFiles, hfi]
        | null =>
          have hb2 : normalizeFiles b = { b with files := FilesField.present [] } := by
            simp [normalizeFiles, hfi]
          rw [hb2]
          have hm2 : ({ b with files := FilesField.present [] } : Body α β γ).messages.getLast?
              = some m := hm
          by_cases hr : (env.pi_model msgC).risk_score > mkRat 8 10
          · rw [inlet, inlet,
              inletState_reject_pi env _ m msgC hm2 hc (by simp) hr,
              inletState_reject_pi env b m msgC hm hc hfm hr]
          · rw [inlet, inlet,
              inletState_past_pi env _ m msgC hm2 hc (by simp) hr,
              inletState_past_pi env b m msgC hm hc hfm hr]
            simp [filesEntries, normalizeFiles, hfi]
